import Mathlib

/-!
Verification of the nss-localuser name/address codec (src/localuser.c).

Names are modelled as lists of byte values (the C char array up to the
terminating NUL), IPv4 addresses as the four network-order bytes of the
stored `uint32_t`.  Machine integers are `Nat` with explicit `% 2 ^ 32`
where the C `uint32_t` arithmetic can wrap.
-/

namespace Localuser

/-- Byte values of a string, modelling a C character string without its NUL. -/
def chars (s : String) : List Nat := s.data.map Char.toNat

/-- Reading `name[i]` of a NUL-terminated C string when the list models the
tail starting at `i`: the head byte, or 0 (NUL) past the end. -/
def peek (l : List Nat) : Nat := l.headD 0

/-- Loop of `read_u32` (src/localuser.c:141-158): digits are consumed into the
`uint32_t` accumulator `a` (so `(a <<< 3) + (a <<< 1) + digit` wraps mod 2^32);
`none` models the `-1` overflow return, otherwise the value and the count of
characters consumed are returned. -/
def read_u32_loop : List Nat → Nat → Nat → Option (Nat × Nat)
  | c :: s, a, p =>
    if 48 ≤ c ∧ c ≤ 57 then
      let b := ((a <<< 3) % 2 ^ 32 + (a <<< 1) % 2 ^ 32 + (c - 48)) % 2 ^ 32
      if b < a then none else read_u32_loop s b (p + 1)
    else some (a, p)
  | [], a, p => some (a, p)

/-- `read_u32` (src/localuser.c:141-158). -/
def read_u32 (s : List Nat) : Option (Nat × Nat) := read_u32_loop s 0 0

/-- Digit-emitting loop of `write_u32` (src/localuser.c:161-179), which pushes
the decimal digits least-significant first before the in-place reversal.
The structural `fuel` argument only bounds the recursion depth (at most one
digit is emitted per unit); `write_u32_rev` instantiates it with the value
itself, which always suffices, so the `fuel = 0` base case is unreachable
from there. -/
def write_u32_go : Nat → Nat → List Nat
  | 0, v => [48 + v]
  | fuel + 1, v => if 9 < v then (48 + v % 10) :: write_u32_go fuel (v / 10) else [48 + v]

/-- Digit-emitting loop of `write_u32` entered with enough fuel. -/
def write_u32_rev (v : Nat) : List Nat := write_u32_go v v

/-- `write_u32` (src/localuser.c:161-179): decimal digits, most significant
first (the C code reverses its buffer in place). -/
def write_u32 (v : Nat) : List Nat := (write_u32_rev v).reverse

/-- `struct lud` (src/localuser.c:129-138). -/
structure Lud where
  has_uid : Bool
  has_appid : Bool
  uid : Nat
  appid : Nat
  ipv4 : List Nat
  len : Nat
  name : List Nat
deriving DecidableEq, Repr

/-- Return value of `decode_name`/`decode_ipv4`: 0 = not a localuser name,
1 = valid (with the filled `struct lud`), -1 = invalid, -2 = out of range. -/
inductive DResult where
  | notMatched
  | malformed
  | outOfRange
  | ok (l : Lud)
deriving DecidableEq, Repr

/-- The integer return code of the C functions for a `DResult`. -/
def rc : DResult → Int
  | .notMatched => 0
  | .malformed => -1
  | .outOfRange => -2
  | .ok _ => 1

/-- `htonl` of a host-order 32-bit value, as the four stored network-order
bytes. -/
def htonl (v : Nat) : List Nat :=
  [v / 2 ^ 24 % 256, v / 2 ^ 16 % 256, v / 2 ^ 8 % 256, v % 256]

/-- `ntohl` of a stored 32-bit value (four network-order bytes) back to the
host-order integer. -/
def ntohl : List Nat → Nat
  | [b0, b1, b2, b3] => b0 % 256 * 2 ^ 24 + b1 % 256 * 2 ^ 16 + b2 % 256 * 2 ^ 8 + b3 % 256
  | _ => 0

/-- `encode_name` (src/localuser.c:181-208): writes the canonical name into
the `lud`, omitting the uid when it equals the current uid `cur` (`getuid()`),
writing `--` in the uid position when there is no uid. -/
def encode_name (cur : Nat) (l : Lud) : Lud :=
  let mid : List Nat :=
    if !l.has_uid then [45, 45]
    else if l.uid ≠ cur then 45 :: write_u32 l.uid
    else if l.has_appid then [45]
    else []
  let tl : List Nat := if l.has_appid then 45 :: write_u32 l.appid else []
  let nm := chars "localuser" ++ mid ++ tl
  { l with name := nm, len := nm.length }

/-- Address composition and range checks of `decode_name`
(src/localuser.c:282-301): `none` models the `-2` out-of-range returns,
otherwise the host-order address is produced from the layout selected by
the two presence flags. -/
def mk_adr (hu ha : Bool) (uid appid : Nat) : Option Nat :=
  if ha && hu then
    if appid > 0x7ff then none
    else if uid > 0x7ff then none
    else some (0x7fc00000 ||| (appid <<< 11) % 2 ^ 32 ||| uid)
  else if ha then
    if appid > 0xfffff then none
    else some (0x7fb00000 ||| appid)
  else
    if uid > 0xfffff then none
    else some (0x7fa00000 ||| uid)

/-- Appid parsing step of `decode_name` (src/localuser.c:267-279): reads the
appid digits and requires the name to end right after them. -/
def read_appid (hu : Bool) (uid : Nat) (rs : List Nat) : Option (Bool × Bool × Nat × Nat) :=
  match read_u32 rs with
  | none => none
  | some (a, p) =>
    if p = 0 then none
    else if rs.drop p ≠ [] then none
    else some (hu, true, uid, a)

/-- Identity parsing of `decode_name` (src/localuser.c:229-279) on the part of
the name after the `localuser` literal: yields `(has_uid, has_appid, uid,
appid)` or `none` for the `-1` malformed returns; `cur` is the current uid
substituted by `getuid()`. -/
def parse_ids (cur : Nat) (rest : List Nat) : Option (Bool × Bool × Nat × Nat) :=
  if rest = [] then some (true, false, cur, 0)
  else if peek rest ≠ 45 then none
  else
    let r1 := rest.tail
    if peek r1 = 45 then
      let r2 := r1.tail
      if peek r2 = 45 then read_appid false 0 r2.tail
      else read_appid true cur r2
    else
      match read_u32 r1 with
      | none => none
      | some (v, p) =>
        if p = 0 then none
        else
          let r4 := r1.drop p
          if r4 = [] then some (true, false, v, 0)
          else if peek r4 = 45 then read_appid true v r4.tail
          else none

/-- The `localuser` literal (src/localuser.c:98). -/
def localuser_chars : List Nat := chars "localuser"

/-- Body of `decode_name` after the `localuser` literal matched
(src/localuser.c:229-306): parse the identifiers, compose and range-check
the address, store `htonl(adr)` and regenerate the canonical name. -/
def decode_tail (cur : Nat) (rest : List Nat) : DResult :=
  match parse_ids cur rest with
  | none => .malformed
  | some (hu, ha, u, a) =>
    match mk_adr hu ha u a with
    | none => .outOfRange
    | some adr =>
      .ok (encode_name cur
        { has_uid := hu, has_appid := ha, uid := u, appid := a,
          ipv4 := htonl adr, len := 0, name := [] })

/-- `decode_name` (src/localuser.c:218-306). -/
def decode_name (cur : Nat) (name : List Nat) : DResult :=
  if name.take localuser_chars.length ≠ localuser_chars then .notMatched
  else decode_tail cur (name.drop localuser_chars.length)

/-- `decode_ipv4` (src/localuser.c:315-354) on the four stored bytes of the
address. -/
def decode_ipv4 (cur : Nat) (bytes : List Nat) : DResult :=
  let adr := ntohl bytes
  if adr &&& 0xff800000 ≠ 0x7f800000 then .notMatched
  else if adr &&& 0x7fc00000 = 0x7fc00000 then
    let uid := adr &&& 0x7ff
    if uid > 0x7ff then .malformed
    else
      let appid := (adr >>> 11) &&& 0x7ff
      if appid > 0x7ff then .malformed
      else .ok (encode_name cur
        { has_uid := true, has_appid := true, uid := uid, appid := appid,
          ipv4 := bytes, len := 0, name := [] })
  else if adr &&& 0x7ff00000 = 0x7fb00000 then
    let appid := adr &&& 0xfffff
    if appid > 0xfffff then .malformed
    else .ok (encode_name cur
      { has_uid := false, has_appid := true, uid := 0, appid := appid,
        ipv4 := bytes, len := 0, name := [] })
  else if adr &&& 0x7ff00000 = 0x7fa00000 then
    let uid := adr &&& 0xfffff
    if uid > 0xfffff then .malformed
    else .ok (encode_name cur
      { has_uid := true, has_appid := false, uid := uid, appid := 0,
        ipv4 := bytes, len := 0, name := [] })
  else .malformed

/-- `NSS_STATUS` values (nss.h) used by the module. -/
inductive NssStatus
  | success
  | notfound
  | tryagain
  | unavail
deriving DecidableEq, Repr

/-- The `struct hostent` fields the module fills: address family, address
length, canonical name bytes and the bytes of `h_addr_list[0]`. -/
structure Hostent where
  h_addrtype : Nat
  h_length : Nat
  h_name : List Nat
  h_addr : List Nat
deriving DecidableEq, Repr

/-- Observable outcome of an NSS entry point: the returned status and the
`*errnop` / `*h_errnop` stores (none = left untouched), plus the filled
entry on success. -/
structure NssResult where
  status : NssStatus
  errno : Option Nat
  h_errno : Option Nat
  ent : Option Hostent
deriving DecidableEq, Repr

/-- `AF_INET` (socket.h). -/
def AF_INET : Nat := 2

/-- `AF_INET6` (socket.h). -/
def AF_INET6 : Nat := 10

/-- `AF_UNSPEC` (socket.h). -/
def AF_UNSPEC : Nat := 0

/-- `HOST_NOT_FOUND` (netdb.h). -/
def HOST_NOT_FOUND : Nat := 1

/-- `NO_RECOVERY` (netdb.h). -/
def NO_RECOVERY : Nat := 3

/-- `EINVAL` (errno.h). -/
def EINVAL : Nat := 22

/-- `ERANGE` (errno.h). -/
def ERANGE : Nat := 34

/-- The twelve leading bytes an IPv4-mapped IPv6 address stores: the words
`0, 0, htonl(0xffff)` written by `fillent` (src/localuser.c:398-402) and
required by `_nss_localuser_gethostbyaddr_r` (src/localuser.c:475). -/
def v6mapped : List Nat := [0, 0, 0, 0, 0, 0, 0, 0, 0, 0, 255, 255]

/-- `fillent` (src/localuser.c:357-406): checks the family, checks the buffer
space (`2 * sizeof (char *) = 16` plus name and address bytes) and fills the
entry; for `AF_INET6` the address is the IPv4-mapped form. -/
def fillent (l : Lud) (af : Nat) (buflen : Nat) : NssResult :=
  if af = AF_INET ∨ af = AF_INET6 then
    let len := if af = AF_INET then 4 else 16
    let alen := 1 + l.len
    if buflen < 2 * 8 + alen + len then
      { status := .tryagain, errno := some ERANGE, h_errno := some NO_RECOVERY, ent := none }
    else
      { status := .success, errno := none, h_errno := none,
        ent := some
          { h_addrtype := af, h_length := len, h_name := l.name,
            h_addr := (if af = AF_INET6 then v6mapped else []) ++ l.ipv4 } }
  else
    { status := .unavail, errno := some EINVAL, h_errno := some NO_RECOVERY, ent := none }

/-- `_nss_localuser_gethostbyname2_r` (src/localuser.c:409-432): decode
failure (return ≤ 0) yields `NSS_STATUS_NOTFOUND` with `HOST_NOT_FOUND`;
`AF_UNSPEC` defaults to `AF_INET`. -/
def gethostbyname2 (cur : Nat) (name : List Nat) (af : Nat) (buflen : Nat) : NssResult :=
  match decode_name cur name with
  | .ok l => fillent l (if af = AF_UNSPEC then AF_INET else af) buflen
  | _ => { status := .notfound, errno := none, h_errno := some HOST_NOT_FOUND, ent := none }

/-- The failure result of `_nss_localuser_gethostbyaddr_r`
(src/localuser.c:482-484). -/
def addr_notfound : NssResult :=
  { status := .notfound, errno := some EINVAL, h_errno := some NO_RECOVERY, ent := none }

/-- `_nss_localuser_gethostbyaddr_r` (src/localuser.c:451-485): family
defaulting from the length, the IPv4-mapped prefix check for IPv6, then
`decode_ipv4` on the 32-bit word the pointer reached. -/
def gethostbyaddr (cur : Nat) (addr : List Nat) (len : Nat) (af : Nat) (buflen : Nat) :
    NssResult :=
  let af2 := if af = AF_UNSPEC then (if len = 4 then AF_INET else if len = 16 then AF_INET6 else af) else af
  if af2 = AF_INET6 ∧ len = 16 then
    if addr.take 12 = v6mapped then
      match decode_ipv4 cur (addr.drop 12) with
      | .ok l => fillent l af2 buflen
      | _ => addr_notfound
    else addr_notfound
  else if af2 = AF_INET ∧ len = 4 then
    match decode_ipv4 cur (addr.take 4) with
    | .ok l => fillent l af2 buflen
    | _ => addr_notfound
  else addr_notfound

/-- The IPv4-mapped IPv6 wrapping written by `fillent`
(src/localuser.c:398-403): the fixed 96-bit prefix followed by the four
address bytes. -/
def to_ipv6 (bs : List Nat) : List Nat := v6mapped ++ bs

/-- The IPv4-mapped IPv6 unwrapping performed by
`_nss_localuser_gethostbyaddr_r` (src/localuser.c:474-479): the last four
bytes, provided the first twelve match the fixed prefix. -/
def from_ipv6 (bs : List Nat) : Option (List Nat) :=
  if bs.take 12 = v6mapped then some (bs.drop 12) else none

/-- A valid Identity in the sense of the codec: at least one field present
and each present field within the maximum of the bit layout selected by the
pair of presence flags (combined: 11 bits each; single-field: 20 bits). -/
def idValid (hu ha : Bool) (uid appid : Nat) : Bool :=
  match hu, ha with
  | true, true => uid ≤ 0x7ff && appid ≤ 0x7ff
  | true, false => uid ≤ 0xfffff
  | false, true => appid ≤ 0xfffff
  | false, false => false

/-- The canonical name `encode_name` produces for an identity, as a byte
list. -/
def name_of (cur : Nat) (hu ha : Bool) (uid appid : Nat) : List Nat :=
  (encode_name cur
    { has_uid := hu, has_appid := ha, uid := uid, appid := appid,
      ipv4 := [], len := 0, name := [] }).name

/-- A contiguous bit mask extracts an arithmetic div/mod/mul field. -/
theorem land_mask (x k s : Nat) :
    x &&& (2 ^ k - 1) <<< s = ((x >>> s) % 2 ^ k) <<< s := by
  apply Nat.eq_of_testBit_eq
  intro i
  simp only [Nat.testBit_and, Nat.testBit_shiftLeft, Nat.testBit_mod_two_pow,
    Nat.testBit_shiftRight, Nat.testBit_two_pow_sub_one, ge_iff_le]
  by_cases hs : s ≤ i
  · have hi : s + (i - s) = i := by omega
    simp [hs, hi, Bool.and_comm]
  · simp [hs]

/-- `land_mask` with the shifts written as arithmetic. -/
theorem land_mask_arith (x k s : Nat) :
    x &&& (2 ^ k - 1) * 2 ^ s = x / 2 ^ s % 2 ^ k * 2 ^ s := by
  have h := land_mask x k s
  rwa [Nat.shiftLeft_eq, Nat.shiftLeft_eq, Nat.shiftRight_eq_div_pow] at h

/-- The /9 range mask `prefix_mask` (src/localuser.c:107). -/
theorem land_ff800000 (x : Nat) : x &&& 0xff800000 = x / 2 ^ 23 % 2 ^ 9 * 2 ^ 23 := by
  rw [show (0xff800000 : Nat) = (2 ^ 9 - 1) * 2 ^ 23 by norm_num, land_mask_arith]

/-- The combined-layout tag mask `locusr_both_ids_mask` (src/localuser.c:110). -/
theorem land_7fc00000 (x : Nat) : x &&& 0x7fc00000 = x / 2 ^ 22 % 2 ^ 9 * 2 ^ 22 := by
  rw [show (0x7fc00000 : Nat) = (2 ^ 9 - 1) * 2 ^ 22 by norm_num, land_mask_arith]

/-- The single-field tag mask `locusr_appid_only_mask`/`locusr_uid_only_mask`
(src/localuser.c:118,123). -/
theorem land_7ff00000 (x : Nat) : x &&& 0x7ff00000 = x / 2 ^ 20 % 2 ^ 11 * 2 ^ 20 := by
  rw [show (0x7ff00000 : Nat) = (2 ^ 11 - 1) * 2 ^ 20 by norm_num, land_mask_arith]

/-- The 11-bit field mask (src/localuser.c:113,115). -/
theorem land_7ff (x : Nat) : x &&& 0x7ff = x % 2 ^ 11 := by
  rw [show (0x7ff : Nat) = 2 ^ 11 - 1 by norm_num, Nat.and_pow_two_sub_one_eq_mod]

/-- The 20-bit field mask (src/localuser.c:121,126). -/
theorem land_fffff (x : Nat) : x &&& 0xfffff = x % 2 ^ 20 := by
  rw [show (0xfffff : Nat) = 2 ^ 20 - 1 by norm_num, Nat.and_pow_two_sub_one_eq_mod]

/-- Bitwise or of values with disjoint bit support is addition. -/
theorem lor_disjoint (n a b : Nat) (ha : a % 2 ^ n = 0) (hb : b < 2 ^ n) :
    a ||| b = a + b := by
  have hq : 2 ^ n * (a / 2 ^ n) = a := by
    rw [Nat.mul_comm]
    exact Nat.div_mul_cancel (Nat.dvd_of_mod_eq_zero ha)
  rw [← hq]
  exact (Nat.mul_add_lt_is_or hb _).symm

/-- Byte decomposition and recomposition of a 32-bit value are inverse. -/
theorem ntohl_htonl (v : Nat) (h : v < 2 ^ 32) : ntohl (htonl v) = v := by
  simp only [htonl, ntohl]
  omega

/-- The fuel of `write_u32_go` is irrelevant once it covers the value. -/
theorem write_u32_go_congr : ∀ f g v : Nat, v ≤ f → v ≤ g →
    write_u32_go f v = write_u32_go g v := by
  intro f
  induction f with
  | zero =>
    intro g v hf hg
    have hv : v = 0 := by omega
    subst hv
    cases g <;> simp [write_u32_go]
  | succ f ih =>
    intro g v hf hg
    cases g with
    | zero =>
      have hv : v = 0 := by omega
      subst hv
      simp [write_u32_go]
    | succ g =>
      simp only [write_u32_go]
      by_cases h9 : 9 < v
      · rw [if_pos h9, if_pos h9, ih g (v / 10) (by omega) (by omega)]
      · rw [if_neg h9, if_neg h9]

/-- Unfolding equation of `write_u32_rev`, mirroring the C loop. -/
theorem write_u32_rev_eq (v : Nat) :
    write_u32_rev v = if 9 < v then (48 + v % 10) :: write_u32_rev (v / 10) else [48 + v] := by
  unfold write_u32_rev
  cases v with
  | zero => simp [write_u32_go]
  | succ n =>
    simp only [write_u32_go]
    by_cases h9 : 9 < n + 1
    · rw [if_pos h9, if_pos h9,
        write_u32_go_congr n ((n + 1) / 10) ((n + 1) / 10) (by omega) le_rfl]
    · rw [if_neg h9, if_neg h9]

/-- A multi-digit value writes its leading digits followed by its last one. -/
theorem write_u32_eq_append (v : Nat) (h : 9 < v) :
    write_u32 v = write_u32 (v / 10) ++ [48 + v % 10] := by
  unfold write_u32
  rw [write_u32_rev_eq, if_pos h, List.reverse_cons]

/-- A single-digit value writes one digit character. -/
theorem write_u32_eq_single (v : Nat) (h : ¬ 9 < v) :
    write_u32 v = [48 + v] := by
  unfold write_u32
  rw [write_u32_rev_eq, if_neg h]
  rfl

/-- The first character written for a value is a decimal digit. -/
theorem write_u32_head_digit (v : Nat) :
    ∃ c t, write_u32 v = c :: t ∧ 48 ≤ c ∧ c ≤ 57 := by
  induction v using Nat.strong_induction_on with
  | _ v ih =>
    by_cases h : 9 < v
    · obtain ⟨c, t, hct, h1, h2⟩ := ih (v / 10) (Nat.div_lt_self (by omega) (by omega))
      refine ⟨c, t ++ [48 + v % 10], ?_, h1, h2⟩
      rw [write_u32_eq_append v h, hct]
      rfl
    · exact ⟨48 + v, [], write_u32_eq_single v h, by omega, by omega⟩

/-- One digit step of the `read_u32` loop. -/
theorem read_u32_step (a d : Nat) (s : List Nat) (p : Nat) (hd : d ≤ 9)
    (hlt : a * 10 + d < 2 ^ 32) :
    read_u32_loop ((48 + d) :: s) a p = read_u32_loop s (a * 10 + d) (p + 1) := by
  simp only [read_u32_loop]
  rw [if_pos (by omega : 48 ≤ 48 + d ∧ 48 + d ≤ 57)]
  have hb : ((a <<< 3) % 2 ^ 32 + (a <<< 1) % 2 ^ 32 + (48 + d - 48)) % 2 ^ 32 = a * 10 + d := by
    rw [Nat.shiftLeft_eq, Nat.shiftLeft_eq]
    omega
  rw [hb, if_neg (by omega : ¬ a * 10 + d < a)]

/-- Reading the written digits of `v` accumulates exactly `v` on top of the
incoming accumulator, provided the final value fits 32 bits. -/
theorem read_u32_loop_write (v : Nat) :
    ∀ a p rest, a * 10 ^ (write_u32 v).length + v < 2 ^ 32 →
      read_u32_loop (write_u32 v ++ rest) a p =
        read_u32_loop rest (a * 10 ^ (write_u32 v).length + v) (p + (write_u32 v).length) := by
  induction v using Nat.strong_induction_on with
  | _ v ih =>
    intro a p rest hlt
    by_cases h9 : 9 < v
    · have hL : (write_u32 v).length = (write_u32 (v / 10)).length + 1 := by
        rw [write_u32_eq_append v h9, List.length_append, List.length_singleton]
      have hx : a * 10 ^ ((write_u32 (v / 10)).length + 1) =
          a * 10 ^ (write_u32 (v / 10)).length * 10 := by
        rw [pow_succ]
        ring
      have hlt2 : a * 10 ^ (write_u32 (v / 10)).length * 10 + v < 2 ^ 32 := by
        rw [hL, hx] at hlt
        exact hlt
      have hih : a * 10 ^ (write_u32 (v / 10)).length + v / 10 < 2 ^ 32 := by omega
      rw [write_u32_eq_append v h9]
      simp only [List.length_append, List.length_singleton]
      rw [List.append_assoc, ih (v / 10) (Nat.div_lt_self (by omega) (by omega)) a p _ hih,
        List.singleton_append,
        read_u32_step _ (v % 10) rest _ (by omega) (by omega)]
      have e1 : (a * 10 ^ (write_u32 (v / 10)).length + v / 10) * 10 + v % 10 =
          a * 10 ^ ((write_u32 (v / 10)).length + 1) + v := by
        rw [hx]
        omega
      have e2 : p + (write_u32 (v / 10)).length + 1 = p + ((write_u32 (v / 10)).length + 1) := by
        omega
      rw [e1, e2]
    · have hL : (write_u32 v).length = 1 := by
        rw [write_u32_eq_single v h9, List.length_singleton]
      rw [hL, pow_one] at hlt
      rw [write_u32_eq_single v h9, List.singleton_append]
      simp only [List.length_singleton, pow_one]
      rw [read_u32_step _ v rest _ (by omega) (by omega)]

/-- `read_u32` of written digits followed by a non-digit (or nothing) returns
the value and the digit count. -/
theorem read_u32_write (v : Nat) (rest : List Nat) (hv : v < 2 ^ 32)
    (hnd : ¬ (48 ≤ peek rest ∧ peek rest ≤ 57)) :
    read_u32 (write_u32 v ++ rest) = some (v, (write_u32 v).length) := by
  unfold read_u32
  rw [read_u32_loop_write v 0 0 rest (by simpa using hv)]
  simp only [Nat.zero_mul, Nat.zero_add]
  cases rest with
  | nil => rfl
  | cons c t =>
    simp only [peek, List.headD] at hnd
    simp only [read_u32_loop]
    rw [if_neg hnd]

/-- The combined-layout encoding of `decode_name` (src/localuser.c:282-290)
as arithmetic. -/
theorem mk_adr_both (u a : Nat) (hu : u ≤ 0x7ff) (ha : a ≤ 0x7ff) :
    mk_adr true true u a = some (0x7fc00000 + a * 2 ^ 11 + u) := by
  have h1 : mk_adr true true u a =
      if a > 0x7ff then none
      else if u > 0x7ff then none
      else some (0x7fc00000 ||| (a <<< 11) % 2 ^ 32 ||| u) := rfl
  rw [h1, if_neg (by omega : ¬ a > 0x7ff), if_neg (by omega : ¬ u > 0x7ff)]
  congr 1
  rw [Nat.shiftLeft_eq, Nat.mod_eq_of_lt (by omega : a * 2 ^ 11 < 2 ^ 32),
    lor_disjoint 22 0x7fc00000 (a * 2 ^ 11) (by norm_num) (by omega),
    lor_disjoint 11 (0x7fc00000 + a * 2 ^ 11) u (by omega) (by omega)]

/-- The appid-only encoding of `decode_name` (src/localuser.c:291-295) as
arithmetic. -/
theorem mk_adr_appid_only (u a : Nat) (ha : a ≤ 0xfffff) :
    mk_adr false true u a = some (0x7fb00000 + a) := by
  have h1 : mk_adr false true u a =
      if a > 0xfffff then none else some (0x7fb00000 ||| a) := rfl
  rw [h1, if_neg (by omega : ¬ a > 0xfffff)]
  congr 1
  exact lor_disjoint 20 _ _ (by norm_num) (by omega)

/-- The uid-only encoding of `decode_name` (src/localuser.c:296-300) as
arithmetic, taken whenever no appid is present. -/
theorem mk_adr_uid_only (hu : Bool) (u a : Nat) (hle : u ≤ 0xfffff) :
    mk_adr hu false u a = some (0x7fa00000 + u) := by
  have key : ∀ b : Bool, mk_adr b false u a =
      if u > 0xfffff then none else some (0x7fa00000 ||| u) := by
    intro b
    cases b <;> rfl
  rw [key, if_neg (by omega : ¬ u > 0xfffff)]
  congr 1
  exact lor_disjoint 20 _ _ (by norm_num) (by omega)

/-- `decode_ipv4` on a combined-layout address recovers both fields. -/
theorem decode_ipv4_both (cur u a : Nat) (hu : u ≤ 0x7ff) (ha : a ≤ 0x7ff) :
    decode_ipv4 cur (htonl (0x7fc00000 + a * 2 ^ 11 + u)) =
      .ok (encode_name cur
        { has_uid := true, has_appid := true, uid := u, appid := a,
          ipv4 := htonl (0x7fc00000 + a * 2 ^ 11 + u), len := 0, name := [] }) := by
  have hlt : 0x7fc00000 + a * 2 ^ 11 + u < 2 ^ 32 := by omega
  simp only [decode_ipv4]
  rw [ntohl_htonl _ hlt]
  simp only [land_ff800000, land_7fc00000, land_7ff00000, land_7ff, land_fffff,
    Nat.shiftRight_eq_div_pow]
  rw [if_neg (by omega :
        ¬ (0x7fc00000 + a * 2 ^ 11 + u) / 2 ^ 23 % 2 ^ 9 * 2 ^ 23 ≠ 0x7f800000),
    if_pos (by omega :
        (0x7fc00000 + a * 2 ^ 11 + u) / 2 ^ 22 % 2 ^ 9 * 2 ^ 22 = 0x7fc00000),
    if_neg (by omega : ¬ (0x7fc00000 + a * 2 ^ 11 + u) % 2 ^ 11 > 0x7ff),
    if_neg (by omega : ¬ (0x7fc00000 + a * 2 ^ 11 + u) / 2 ^ 11 % 2 ^ 11 > 0x7ff),
    show (0x7fc00000 + a * 2 ^ 11 + u) % 2 ^ 11 = u by omega,
    show (0x7fc00000 + a * 2 ^ 11 + u) / 2 ^ 11 % 2 ^ 11 = a by omega]

/-- `decode_ipv4` on an appid-only-layout address recovers the appid. -/
theorem decode_ipv4_appid_only (cur a : Nat) (ha : a ≤ 0xfffff) :
    decode_ipv4 cur (htonl (0x7fb00000 + a)) =
      .ok (encode_name cur
        { has_uid := false, has_appid := true, uid := 0, appid := a,
          ipv4 := htonl (0x7fb00000 + a), len := 0, name := [] }) := by
  have hlt : 0x7fb00000 + a < 2 ^ 32 := by omega
  simp only [decode_ipv4]
  rw [ntohl_htonl _ hlt]
  simp only [land_ff800000, land_7fc00000, land_7ff00000, land_7ff, land_fffff,
    Nat.shiftRight_eq_div_pow]
  rw [if_neg (by omega : ¬ (0x7fb00000 + a) / 2 ^ 23 % 2 ^ 9 * 2 ^ 23 ≠ 0x7f800000),
    if_neg (by omega : ¬ (0x7fb00000 + a) / 2 ^ 22 % 2 ^ 9 * 2 ^ 22 = 0x7fc00000),
    if_pos (by omega : (0x7fb00000 + a) / 2 ^ 20 % 2 ^ 11 * 2 ^ 20 = 0x7fb00000),
    if_neg (by omega : ¬ (0x7fb00000 + a) % 2 ^ 20 > 0xfffff),
    show (0x7fb00000 + a) % 2 ^ 20 = a by omega]

/-- `decode_ipv4` on a uid-only-layout address recovers the uid. -/
theorem decode_ipv4_uid_only (cur u : Nat) (hu : u ≤ 0xfffff) :
    decode_ipv4 cur (htonl (0x7fa00000 + u)) =
      .ok (encode_name cur
        { has_uid := true, has_appid := false, uid := u, appid := 0,
          ipv4 := htonl (0x7fa00000 + u), len := 0, name := [] }) := by
  have hlt : 0x7fa00000 + u < 2 ^ 32 := by omega
  simp only [decode_ipv4]
  rw [ntohl_htonl _ hlt]
  simp only [land_ff800000, land_7fc00000, land_7ff00000, land_7ff, land_fffff,
    Nat.shiftRight_eq_div_pow]
  rw [if_neg (by omega : ¬ (0x7fa00000 + u) / 2 ^ 23 % 2 ^ 9 * 2 ^ 23 ≠ 0x7f800000),
    if_neg (by omega : ¬ (0x7fa00000 + u) / 2 ^ 22 % 2 ^ 9 * 2 ^ 22 = 0x7fc00000),
    if_neg (by omega : ¬ (0x7fa00000 + u) / 2 ^ 20 % 2 ^ 11 * 2 ^ 20 = 0x7fb00000),
    if_pos (by omega : (0x7fa00000 + u) / 2 ^ 20 % 2 ^ 11 * 2 ^ 20 = 0x7fa00000),
    if_neg (by omega : ¬ (0x7fa00000 + u) % 2 ^ 20 > 0xfffff),
    show (0x7fa00000 + u) % 2 ^ 20 = u by omega]

/-- The written digit list is never empty (its length is positive). -/
theorem write_u32_length_pos (v : Nat) : 0 < (write_u32 v).length := by
  obtain ⟨c, t, hct, -, -⟩ := write_u32_head_digit v
  rw [hct]
  simp

/-- `read_appid` on exactly the written digits of a value succeeds. -/
theorem read_appid_write (hu : Bool) (uid a : Nat) (ha : a < 2 ^ 32) :
    read_appid hu uid (write_u32 a) = some (hu, true, uid, a) := by
  unfold read_appid
  rw [← List.append_nil (write_u32 a), read_u32_write a [] ha (by decide)]
  simp only [List.drop_left, ne_eq]
  rw [if_neg (by have := write_u32_length_pos a; omega), if_neg (by simp)]

/-- `parse_ids` of the empty tail: the bare `localuser` name uses the current
uid (src/localuser.c:229-233). -/
theorem parse_ids_nil (cur : Nat) : parse_ids cur [] = some (true, false, cur, 0) := rfl

/-- `parse_ids` of `-<digits>`: explicit uid, no appid. -/
theorem parse_ids_uid (cur u : Nat) (hu32 : u < 2 ^ 32) :
    parse_ids cur (45 :: write_u32 u) = some (true, false, u, 0) := by
  obtain ⟨c, t, hct, hc1, hc2⟩ := write_u32_head_digit u
  unfold parse_ids
  rw [if_neg (by simp : ¬ (45 :: write_u32 u = [])),
    if_neg (by simp [peek] : ¬ peek (45 :: write_u32 u) ≠ 45)]
  simp only [List.tail_cons]
  rw [if_neg (by rw [hct]; simp [peek]; omega : ¬ peek (write_u32 u) = 45),
    ← List.append_nil (write_u32 u), read_u32_write u [] hu32 (by decide)]
  simp only [List.drop_left]
  rw [if_neg (by have := write_u32_length_pos u; omega)]
  simp

/-- `parse_ids` of `-<digits>-<digits>`: explicit uid and appid. -/
theorem parse_ids_uid_appid (cur u a : Nat) (hu32 : u < 2 ^ 32) (ha32 : a < 2 ^ 32) :
    parse_ids cur (45 :: (write_u32 u ++ 45 :: write_u32 a)) = some (true, true, u, a) := by
  obtain ⟨c, t, hct, hc1, hc2⟩ := write_u32_head_digit u
  unfold parse_ids
  rw [if_neg (by simp : ¬ (45 :: (write_u32 u ++ 45 :: write_u32 a) = [])),
    if_neg (by simp [peek] : ¬ peek (45 :: (write_u32 u ++ 45 :: write_u32 a)) ≠ 45)]
  simp only [List.tail_cons]
  rw [if_neg (by rw [hct]; simp [peek]; omega :
      ¬ peek (write_u32 u ++ 45 :: write_u32 a) = 45),
    read_u32_write u (45 :: write_u32 a) hu32 (by simp [peek])]
  simp only [List.drop_left]
  rw [if_neg (by have := write_u32_length_pos u; omega),
    if_neg (by simp : ¬ (45 :: write_u32 a = [])),
    if_pos (by simp [peek] : peek (45 :: write_u32 a) = 45)]
  simp only [List.tail_cons]
  exact read_appid_write true u a ha32

/-- `parse_ids` of `--<digits>`: current uid substituted, explicit appid
(src/localuser.c:245-249). -/
theorem parse_ids_cur_appid (cur a : Nat) (ha32 : a < 2 ^ 32) :
    parse_ids cur (45 :: 45 :: write_u32 a) = some (true, true, cur, a) := by
  obtain ⟨c, t, hct, hc1, hc2⟩ := write_u32_head_digit a
  unfold parse_ids
  rw [if_neg (by simp : ¬ (45 :: 45 :: write_u32 a = [])),
    if_neg (by simp [peek] : ¬ peek (45 :: 45 :: write_u32 a) ≠ 45)]
  simp only [List.tail_cons]
  rw [if_pos (by simp [peek] : peek (45 :: write_u32 a) = 45),
    if_neg (by rw [hct]; simp [peek]; omega : ¬ peek (write_u32 a) = 45)]
  exact read_appid_write true cur a ha32

/-- `parse_ids` of `---<digits>`: no uid, explicit appid
(src/localuser.c:241-244). -/
theorem parse_ids_no_uid_appid (cur a : Nat) (ha32 : a < 2 ^ 32) :
    parse_ids cur (45 :: 45 :: 45 :: write_u32 a) = some (false, true, 0, a) := by
  unfold parse_ids
  rw [if_neg (by simp : ¬ (45 :: 45 :: 45 :: write_u32 a = [])),
    if_neg (by simp [peek] : ¬ peek (45 :: 45 :: 45 :: write_u32 a) ≠ 45)]
  simp only [List.tail_cons]
  rw [if_pos (by simp [peek] : peek (45 :: 45 :: write_u32 a) = 45)]
  exact read_appid_write false 0 a ha32

/-- `decode_name` after the `localuser` literal is `decode_tail` on the
remainder. -/
theorem decode_name_append (cur : Nat) (rest : List Nat) :
    decode_name cur (localuser_chars ++ rest) = decode_tail cur rest := by
  unfold decode_name
  rw [List.take_left, List.drop_left, if_neg (by simp)]

/-- The name built by `encode_name`, by section. -/
theorem encode_name_name (cur : Nat) (l : Lud) :
    (encode_name cur l).name =
      chars "localuser" ++
        (if !l.has_uid then [45, 45]
         else if l.uid ≠ cur then 45 :: write_u32 l.uid
         else if l.has_appid then [45]
         else []) ++
        (if l.has_appid then 45 :: write_u32 l.appid else []) := rfl

/-- Decoding a canonical name recovers the identity it was encoded from:
the presence flags, the present field values (the uid through the
current-user substitution when it equals `cur`), and the canonical name
itself. -/
theorem decode_name_of_encode (cur : Nat) (hu ha : Bool) (u a : Nat)
    (h : idValid hu ha u a = true) :
    ∃ l : Lud, decode_name cur (name_of cur hu ha u a) = .ok l ∧
      l.has_uid = hu ∧ l.has_appid = ha ∧
      (hu = true → l.uid = u) ∧ (ha = true → l.appid = a) ∧
      l.name = name_of cur hu ha u a := by
  cases hu <;> cases ha
  · simp [idValid] at h
  · -- appid only: the name is localuser---APPID
    have ha20 : a ≤ 0xfffff := by simpa [idValid] using h
    have hname : name_of cur false true u a =
        localuser_chars ++ (45 :: 45 :: 45 :: write_u32 a) := by
      simp [name_of, encode_name, localuser_chars]
    refine ⟨encode_name cur
      { has_uid := false, has_appid := true, uid := 0, appid := a,
        ipv4 := htonl (0x7fb00000 + a), len := 0, name := [] },
      ?_, rfl, rfl, by simp, fun _ => rfl, ?_⟩
    · rw [hname, decode_name_append]
      unfold decode_tail
      rw [parse_ids_no_uid_appid cur a (by omega)]
      simp only [mk_adr_appid_only 0 a ha20]
    · rw [hname]
      simp [encode_name, localuser_chars]
  · -- uid only: the name is localuser or localuser-UID
    have h20 : u ≤ 0xfffff := by simpa [idValid] using h
    by_cases hceq : u = cur
    · have hname : name_of cur true false u a = localuser_chars ++ [] := by
        simp [name_of, encode_name, localuser_chars, hceq]
      refine ⟨encode_name cur
        { has_uid := true, has_appid := false, uid := cur, appid := 0,
          ipv4 := htonl (0x7fa00000 + cur), len := 0, name := [] },
        ?_, rfl, rfl, fun _ => hceq.symm, by simp, ?_⟩
      · rw [hname, decode_name_append]
        unfold decode_tail
        rw [parse_ids_nil]
        simp only [mk_adr_uid_only true cur 0 (hceq ▸ h20)]
      · rw [hname]
        simp [encode_name, localuser_chars]
    · have hname : name_of cur true false u a =
          localuser_chars ++ (45 :: write_u32 u) := by
        simp [name_of, encode_name, localuser_chars, hceq]
      refine ⟨encode_name cur
        { has_uid := true, has_appid := false, uid := u, appid := 0,
          ipv4 := htonl (0x7fa00000 + u), len := 0, name := [] },
        ?_, rfl, rfl, fun _ => rfl, by simp, ?_⟩
      · rw [hname, decode_name_append]
        unfold decode_tail
        rw [parse_ids_uid cur u (by omega)]
        simp only [mk_adr_uid_only true u 0 h20]
      · rw [hname]
        simp [encode_name, localuser_chars, hceq]
  · -- both: the name is localuser-UID-APPID or localuser--APPID
    have hb : u ≤ 0x7ff ∧ a ≤ 0x7ff := by simpa [idValid] using h
    by_cases hceq : u = cur
    · have hname : name_of cur true true u a =
          localuser_chars ++ (45 :: 45 :: write_u32 a) := by
        simp [name_of, encode_name, localuser_chars, hceq]
      refine ⟨encode_name cur
        { has_uid := true, has_appid := true, uid := cur, appid := a,
          ipv4 := htonl (0x7fc00000 + a * 2 ^ 11 + cur), len := 0, name := [] },
        ?_, rfl, rfl, fun _ => hceq.symm, fun _ => rfl, ?_⟩
      · rw [hname, decode_name_append]
        unfold decode_tail
        rw [parse_ids_cur_appid cur a (by omega)]
        simp only [mk_adr_both cur a (hceq ▸ hb.1) hb.2]
      · rw [hname]
        simp [encode_name, localuser_chars]
    · have hname : name_of cur true true u a =
          localuser_chars ++ (45 :: (write_u32 u ++ 45 :: write_u32 a)) := by
        simp [name_of, encode_name, localuser_chars, hceq]
      refine ⟨encode_name cur
        { has_uid := true, has_appid := true, uid := u, appid := a,
          ipv4 := htonl (0x7fc00000 + a * 2 ^ 11 + u), len := 0, name := [] },
        ?_, rfl, rfl, fun _ => rfl, fun _ => rfl, ?_⟩
      · rw [hname, decode_name_append]
        unfold decode_tail
        rw [parse_ids_uid_appid cur u a (by omega) (by omega)]
        simp only [mk_adr_both u a hb.1 hb.2]
      · rw [hname]
        simp [encode_name, localuser_chars, hceq]

/-- A combined-layout uid beyond 11 bits makes the encoding fail
(src/localuser.c:286-287). -/
theorem mk_adr_both_uid_oor (u a : Nat) (hgt : 0x7ff < u) :
    mk_adr true true u a = none := by
  have h1 : mk_adr true true u a =
      if a > 0x7ff then none
      else if u > 0x7ff then none
      else some (0x7fc00000 ||| (a <<< 11) % 2 ^ 32 ||| u) := rfl
  by_cases haa : a > 0x7ff
  · rw [h1, if_pos haa]
  · rw [h1, if_neg haa, if_pos hgt]

/-- A failed name decode surfaces as `NSS_STATUS_NOTFOUND` with
`HOST_NOT_FOUND` in `_nss_localuser_gethostbyname2_r`
(src/localuser.c:421-424). -/
theorem gethostbyname2_notfound (cur : Nat) (name : List Nat) (af buflen : Nat)
    (h : rc (decode_name cur name) ≤ 0) :
    gethostbyname2 cur name af buflen =
      { status := .notfound, errno := none, h_errno := some HOST_NOT_FOUND, ent := none } := by
  unfold gethostbyname2
  cases hd : decode_name cur name with
  | ok l =>
    rw [hd] at h
    exact absurd h (by norm_num [rc])
  | notMatched => rfl
  | malformed => rfl
  | outOfRange => rfl

/-- C1 (counterexample): reverse resolution of IPv4 `127.128.4.0` does not
succeed: `decode_ipv4` returns -1 (the address carries none of the three
layout tags), so it does not return 1 with uid 1024 as the claim states. -/
theorem C1_reverse_127_128_4_0_counterexample :
    decode_ipv4 1001 [127, 128, 4, 0] = DResult.malformed ∧
    rc (decode_ipv4 1001 [127, 128, 4, 0]) ≠ 1 := by
  exact ⟨rfl, by decide⟩

/-- C1 (amended): reverse resolution of the uid-only-tagged IPv4 address
`127.160.4.0` succeeds and yields the Identity with has_uid = true,
uid = 1024, has_appid = false, whose canonical name is `localuser-1024`
(for a current user id 1001 ≠ 1024): `decode_ipv4` returns 1 and fills
uid = 1024 and the name `localuser-1024`. -/
theorem C1_reverse_uid_only_amended :
    decode_ipv4 1001 [127, 160, 4, 0] =
      DResult.ok
        { has_uid := true, has_appid := false, uid := 1024, appid := 0,
          ipv4 := [127, 160, 4, 0], len := 14,
          name := chars "localuser-1024" } := by
  rfl

/-- C2: with current user id 1001, name decoding produces exactly the spec's
concrete scenarios: `localuser` yields 127.160.3.233 with canonical name
`localuser`; `localuser-0` yields 127.160.0.0; `localuser-1048575` yields
127.175.255.255; `localuser---1048575` yields 127.191.255.255; and
`localuser-23-54` yields 127.193.176.23 (combined layout, appid = 54 shifted
above uid = 23). -/
theorem C2_concrete_scenarios :
    decode_name 1001 (chars "localuser") =
      DResult.ok
        { has_uid := true, has_appid := false, uid := 1001, appid := 0,
          ipv4 := [127, 160, 3, 233], len := 9, name := chars "localuser" } ∧
    decode_name 1001 (chars "localuser-0") =
      DResult.ok
        { has_uid := true, has_appid := false, uid := 0, appid := 0,
          ipv4 := [127, 160, 0, 0], len := 11, name := chars "localuser-0" } ∧
    decode_name 1001 (chars "localuser-1048575") =
      DResult.ok
        { has_uid := true, has_appid := false, uid := 1048575, appid := 0,
          ipv4 := [127, 175, 255, 255], len := 17,
          name := chars "localuser-1048575" } ∧
    decode_name 1001 (chars "localuser---1048575") =
      DResult.ok
        { has_uid := false, has_appid := true, uid := 0, appid := 1048575,
          ipv4 := [127, 191, 255, 255], len := 19,
          name := chars "localuser---1048575" } ∧
    decode_name 1001 (chars "localuser-23-54") =
      DResult.ok
        { has_uid := true, has_appid := true, uid := 23, appid := 54,
          ipv4 := [127, 193, 176, 23], len := 15,
          name := chars "localuser-23-54" } := by
  exact ⟨rfl, rfl, rfl, rfl, rfl⟩

/-- C4: field values equal to their layout maximum encode successfully
(uid = 2047 and appid = 2047 in the combined layout, uid = 1048575 or
appid = 1048575 in the single-field layouts) and, for each layout, a present
field equal to maximum + 1 makes encoding fail with the out-of-range return
-2 of `decode_name`, whatever the current user id. -/
theorem C4_range_boundaries :
    ∀ cur : Nat,
      rc (decode_name cur (chars "localuser-2047-2047")) = 1 ∧
      rc (decode_name cur (chars "localuser-2048-2047")) = -2 ∧
      rc (decode_name cur (chars "localuser-2047-2048")) = -2 ∧
      rc (decode_name cur (chars "localuser-1048575")) = 1 ∧
      rc (decode_name cur (chars "localuser-1048576")) = -2 ∧
      rc (decode_name cur (chars "localuser---1048575")) = 1 ∧
      rc (decode_name cur (chars "localuser---1048576")) = -2 := by
  intro cur
  exact ⟨rfl, rfl, rfl, rfl, rfl, rfl, rfl⟩

/-- C5 (code bug): the `b < a` wrap test of `read_u32` does not reject every
digit sequence whose value reaches 2^32: `5000000000` (≥ 2^32) is accepted
with the wrapped accumulator 705032704 and consumed length 10, so
`localuser-5000000000` fails with the range-check return -2 instead of the
malformed return -1; the detected case `4294967296` does return the overflow
error. -/
theorem C5_read_u32_overflow_bug :
    read_u32 (chars "5000000000") = some (705032704, 10) ∧
    (∀ cur : Nat, rc (decode_name cur (chars "localuser-5000000000")) = -2) ∧
    read_u32 (chars "4294967296") = none := by
  exact ⟨rfl, fun cur => rfl, rfl⟩

/-- C3: for every valid Identity (each present field within the maximum of
the layout selected by the presence flags), decoding the encoded address
returns the same Identity — `decode_ipv4` applied to the 32-bit address
composed by the encoder recovers identical presence flags and present field
values — and decoding the encoded canonical name returns the same Identity up
to current-user substitution. -/
theorem C3_roundtrip :
    ∀ (cur : Nat) (hu ha : Bool) (u a : Nat), idValid hu ha u a = true →
      (∃ adr l, mk_adr hu ha u a = some adr ∧
        decode_ipv4 cur (htonl adr) = DResult.ok l ∧
        l.has_uid = hu ∧ l.has_appid = ha ∧
        (hu = true → l.uid = u) ∧ (ha = true → l.appid = a)) ∧
      (∃ l, decode_name cur (name_of cur hu ha u a) = DResult.ok l ∧
        l.has_uid = hu ∧ l.has_appid = ha ∧
        (hu = true → l.uid = u) ∧ (ha = true → l.appid = a)) := by
  intro cur hu ha u a h
  constructor
  · cases hu <;> cases ha
    · simp [idValid] at h
    · have ha20 : a ≤ 0xfffff := by simpa [idValid] using h
      exact ⟨0x7fb00000 + a, _, mk_adr_appid_only u a ha20,
        decode_ipv4_appid_only cur a ha20, rfl, rfl, by simp, fun _ => rfl⟩
    · have h20 : u ≤ 0xfffff := by simpa [idValid] using h
      exact ⟨0x7fa00000 + u, _, mk_adr_uid_only true u a h20,
        decode_ipv4_uid_only cur u h20, rfl, rfl, fun _ => rfl, by simp⟩
    · have hb : u ≤ 0x7ff ∧ a ≤ 0x7ff := by simpa [idValid] using h
      exact ⟨0x7fc00000 + a * 2 ^ 11 + u, _, mk_adr_both u a hb.1 hb.2,
        decode_ipv4_both cur u a hb.1 hb.2, rfl, rfl, fun _ => rfl, fun _ => rfl⟩
  · obtain ⟨l, h1, h2, h3, h4, h5, -⟩ := decode_name_of_encode cur hu ha u a h
    exact ⟨l, h1, h2, h3, h4, h5⟩

/-- C3 witness: the round trip at current uid 1001 and identity
uid 5, appid 7. -/
theorem C3_roundtrip_witness :
    idValid true true 5 7 = true ∧
    rc (decode_name 1001 (name_of 1001 true true 5 7)) = 1 := by
  refine ⟨by decide, ?_⟩
  obtain ⟨-, ⟨l, hl, -, -, -, -⟩⟩ := C3_roundtrip 1001 true true 5 7 (by decide)
  rw [hl]
  rfl

/-- C6: for every input name, if name decoding fails as malformed (-1), out of
range (-2) or not matched (0), the forward resolution entry point returns
`NSS_STATUS_NOTFOUND` with `HOST_NOT_FOUND` — never a hard framework error —
whatever the family and buffer size. -/
theorem C6_decode_failures_notfound :
    ∀ (cur : Nat) (name : List Nat) (af buflen : Nat),
      rc (decode_name cur name) ≤ 0 →
      gethostbyname2 cur name af buflen =
        { status := NssStatus.notfound, errno := none,
          h_errno := some HOST_NOT_FOUND, ent := none } :=
  fun cur name af buflen h => gethostbyname2_notfound cur name af buflen h

/-- C6 witness: the malformed name `localuser-x`. -/
theorem C6_decode_failures_notfound_witness :
    rc (decode_name 0 (chars "localuser-x")) ≤ 0 ∧
    gethostbyname2 0 (chars "localuser-x") 2 100 =
      { status := NssStatus.notfound, errno := none,
        h_errno := some HOST_NOT_FOUND, ent := none } :=
  ⟨by decide, C6_decode_failures_notfound 0 (chars "localuser-x") 2 100 (by decide)⟩

/-- C7: IPv6 wrapping round-trips — for every scheme IPv4 address (one that
`decode_ipv4` accepts), wrapping it as the IPv4-mapped IPv6 value and
unwrapping recovers it; reverse resolution of any 16-byte address whose first
96 bits differ from the fixed prefix yields the not-found result; and an
inconsistent family/length pair (IPv4 with length other than 4, IPv6 with
length other than 16) yields the not-found result. -/
theorem C7_ipv6_wrapping :
    (∀ (cur : Nat) (a4 : List Nat), rc (decode_ipv4 cur a4) = 1 →
      from_ipv6 (to_ipv6 a4) = some a4) ∧
    (∀ (cur buflen : Nat) (addr : List Nat), addr.take 12 ≠ v6mapped →
      gethostbyaddr cur addr 16 AF_INET6 buflen = addr_notfound) ∧
    (∀ (cur len af buflen : Nat) (addr : List Nat),
      (af = AF_INET ∧ len ≠ 4) ∨ (af = AF_INET6 ∧ len ≠ 16) →
      gethostbyaddr cur addr len af buflen = addr_notfound) := by
  refine ⟨?_, ?_, ?_⟩
  · intro cur a4 _
    unfold from_ipv6 to_ipv6
    rw [List.take_left' (show v6mapped.length = 12 from rfl), if_pos rfl,
      List.drop_left' (show v6mapped.length = 12 from rfl)]
  · intro cur buflen addr hne
    unfold gethostbyaddr
    simp only [AF_INET6, AF_UNSPEC, AF_INET]
    norm_num
    exact fun hx => absurd hx hne
  · intro cur len af buflen addr hmis
    rcases hmis with ⟨haf, hlen⟩ | ⟨haf, hlen⟩ <;>
      subst haf <;>
      unfold gethostbyaddr <;>
      simp only [AF_INET, AF_INET6, AF_UNSPEC] <;>
      norm_num <;>
      exact fun hx => absurd hx hlen

/-- C7 witness: the uid-only address 127.160.4.0, a 16-byte value with a
wrong prefix, and two inconsistent family/length pairs. -/
theorem C7_ipv6_wrapping_witness :
    rc (decode_ipv4 1001 [127, 160, 4, 0]) = 1 ∧
    from_ipv6 (to_ipv6 [127, 160, 4, 0]) = some [127, 160, 4, 0] ∧
    gethostbyaddr 0 [1, 0, 0, 0, 0, 0, 0, 0, 0, 0, 0, 0, 0, 0, 0, 0] 16 AF_INET6 100 =
      addr_notfound ∧
    gethostbyaddr 0 [] 3 AF_INET 100 = addr_notfound :=
  ⟨by decide,
    C7_ipv6_wrapping.1 1001 [127, 160, 4, 0] (by decide),
    C7_ipv6_wrapping.2.1 0 100 [1, 0, 0, 0, 0, 0, 0, 0, 0, 0, 0, 0, 0, 0, 0, 0] (by decide),
    C7_ipv6_wrapping.2.2 0 3 AF_INET 100 [] (Or.inl ⟨rfl, by decide⟩)⟩

/-- C8: the three address layouts are pairwise disjoint — for all valid field
values, no address composed by the combined encoding equals one composed by
the appid-only or uid-only encoding, and no appid-only address equals a
uid-only address. -/
theorem C8_layouts_disjoint :
    ∀ u a u2 a2 : Nat, u ≤ 0x7ff → a ≤ 0x7ff → u2 ≤ 0xfffff → a2 ≤ 0xfffff →
      mk_adr true true u a ≠ mk_adr false true 0 a2 ∧
      mk_adr true true u a ≠ mk_adr true false u2 0 ∧
      mk_adr false true 0 a2 ≠ mk_adr true false u2 0 := by
  intro u a u2 a2 h1 h2 h3 h4
  rw [mk_adr_both u a h1 h2, mk_adr_appid_only 0 a2 h4, mk_adr_uid_only true u2 0 h3]
  refine ⟨?_, ?_, ?_⟩ <;> simp only [ne_eq, Option.some.injEq] <;> omega

/-- C8 witness: the three layouts at field values 0. -/
theorem C8_layouts_disjoint_witness :
    mk_adr true true 0 0 ≠ mk_adr false true 0 0 ∧
    mk_adr true true 0 0 ≠ mk_adr true false 0 0 ∧
    mk_adr false true 0 0 ≠ mk_adr true false 0 0 :=
  C8_layouts_disjoint 0 0 0 0 (by decide) (by decide) (by decide) (by decide)

/-- C9: canonical names are fixed points of re-encoding — for every valid
Identity, decoding its canonical name succeeds and the canonical name the
decoder regenerates (the re-encoding of the decoded Identity) reproduces that
name character for character, the current uid held fixed. -/
theorem C9_canonical_fixed_point :
    ∀ (cur : Nat) (hu ha : Bool) (u a : Nat), idValid hu ha u a = true →
      ∃ l, decode_name cur (name_of cur hu ha u a) = DResult.ok l ∧
        l.name = name_of cur hu ha u a := by
  intro cur hu ha u a h
  obtain ⟨l, h1, -, -, -, -, h6⟩ := decode_name_of_encode cur hu ha u a h
  exact ⟨l, h1, h6⟩

/-- C9 witness: the identity uid 55 at current uid 1001. -/
theorem C9_canonical_fixed_point_witness :
    idValid true false 55 0 = true ∧
    ∃ l, decode_name 1001 (name_of 1001 true false 55 0) = DResult.ok l ∧
      l.name = name_of 1001 true false 55 0 :=
  ⟨by decide, C9_canonical_fixed_point 1001 true false 55 0 (by decide)⟩

/-- C10: decoding `localuser--<digits>` substitutes the current uid and
range-checks it against the combined layout's 11-bit maximum: decoding
succeeds only if the current uid is at most 2047, and a current uid above
2047 makes the decode fail with the out-of-range return -2 — surfaced
externally as not-found — regardless of the appid value. -/
theorem C10_current_uid_combined_range :
    ∀ cur a : Nat, a < 2 ^ 32 →
      (rc (decode_name cur (chars "localuser--" ++ write_u32 a)) = 1 → cur ≤ 0x7ff) ∧
      (0x7ff < cur →
        decode_name cur (chars "localuser--" ++ write_u32 a) = DResult.outOfRange ∧
        ∀ af buflen : Nat,
          gethostbyname2 cur (chars "localuser--" ++ write_u32 a) af buflen =
            { status := NssStatus.notfound, errno := none,
              h_errno := some HOST_NOT_FOUND, ent := none }) := by
  intro cur a ha32
  have h0 : chars "localuser--" = localuser_chars ++ [45, 45] := by rfl
  have hsplit : chars "localuser--" ++ write_u32 a =
      localuser_chars ++ (45 :: 45 :: write_u32 a) := by
    rw [h0, List.append_assoc]
    rfl
  have hparse : decode_name cur (chars "localuser--" ++ write_u32 a) =
      match mk_adr true true cur a with
      | none => DResult.outOfRange
      | some adr =>
        DResult.ok (encode_name cur
          { has_uid := true, has_appid := true, uid := cur, appid := a,
            ipv4 := htonl adr, len := 0, name := [] }) := by
    rw [hsplit, decode_name_append]
    unfold decode_tail
    rw [parse_ids_cur_appid cur a ha32]
  constructor
  · intro hrc
    by_contra hc
    push_neg at hc
    rw [hparse, mk_adr_both_uid_oor cur a hc] at hrc
    simp [rc] at hrc
  · intro hcur
    have hoor : decode_name cur (chars "localuser--" ++ write_u32 a) =
        DResult.outOfRange := by
      rw [hparse, mk_adr_both_uid_oor cur a hcur]
    refine ⟨hoor, fun af buflen => gethostbyname2_notfound cur _ af buflen ?_⟩
    rw [hoor]
    decide

/-- C10 witness: current uid 3000 with appid 7. -/
theorem C10_current_uid_combined_range_witness :
    (7 : Nat) < 2 ^ 32 ∧ 0x7ff < 3000 ∧
    decode_name 3000 (chars "localuser--" ++ write_u32 7) = DResult.outOfRange :=
  ⟨by decide, by decide,
    ((C10_current_uid_combined_range 3000 7 (by decide)).2 (by decide)).1⟩

end Localuser
